import Mathlib

/-
Verification development for the k6 metrics naming / submetric core
(src/metrics/metric.go).

Strings are embedded as `List Char`.  The Go `strings` helpers used by the
source (TrimSpace, Trim with a cutset, Split, SplitN with limit 2,
IndexByte, LastIndexByte) are given faithful character-level definitions.
The `SampleTags` abstraction (IntoSampleTags, IsEqual) is not part of the
source file; it is modelled from the spec as an order-independent
key-to-value mapping.  Pointer structure (the Metric/Submetric cycle) is
embedded with an arena: `MState` holds the allocated metrics and
submetrics, and links are indices into those arenas.
-/

namespace K6

/-! ### Character constants -/

def lbrace : Char := Char.ofNat 123
def rbrace : Char := Char.ofNat 125
def comma : Char := Char.ofNat 44
def colon : Char := Char.ofNat 58
def dquote : Char := Char.ofNat 34
def squote : Char := Char.ofNat 39

/-! ### Go strings helpers -/

/-- Go `unicode.IsSpace`: the White_Space code points. -/
def goIsSpace (c : Char) : Bool :=
  decide ((9 ≤ c.toNat ∧ c.toNat ≤ 13) ∨ c.toNat = 32 ∨ c.toNat = 133 ∨
    c.toNat = 160 ∨ c.toNat = 5760 ∨ (8192 ≤ c.toNat ∧ c.toNat ≤ 8202) ∨
    c.toNat = 8232 ∨ c.toNat = 8233 ∨ c.toNat = 8239 ∨ c.toNat = 8287 ∨
    c.toNat = 12288)

/-- Trim characters satisfying `p` from both ends (Go `strings.TrimFunc` shape,
used for both `TrimSpace` and `Trim` with a cutset). -/
def trimBoth (p : Char → Bool) (s : List Char) : List Char :=
  ((s.dropWhile p).reverse.dropWhile p).reverse

/-- Go `strings.TrimSpace`. -/
def trimSpace (s : List Char) : List Char := trimBoth goIsSpace s

/-- Membership in the cutset of Go `strings.Trim(s, "\x22\x27")`:
a double or single quote character. -/
def isQuoteCut (c : Char) : Bool := decide (c = dquote ∨ c = squote)

/-- Go `strings.Trim(s, "\x22\x27")`: removes ALL leading and trailing
quote characters, of either kind. -/
def quoteStrip (s : List Char) : List Char := trimBoth isQuoteCut s

/-- Helper for `goSplit`, accumulating the current segment reversed. -/
def splitAux (sep : Char) : List Char → List Char → List (List Char)
  | [], acc => [acc.reverse]
  | c :: rest, acc =>
    if c = sep then acc.reverse :: splitAux sep rest []
    else splitAux sep rest (c :: acc)

/-- Go `strings.Split(s, sep)` for a one-character separator. -/
def goSplit (sep : Char) (s : List Char) : List (List Char) := splitAux sep s []

/-- Go `strings.SplitN(s, sep, 2)` for a one-character separator:
the part before the first separator, and (when a separator exists)
the part after it. -/
def splitFirst (sep : Char) : List Char → List Char × Option (List Char)
  | [] => ([], none)
  | c :: rest =>
    if c = sep then ([], some rest)
    else
      ((c :: (splitFirst sep rest).1), (splitFirst sep rest).2)

/-- Go `strings.IndexByte` at character granularity. -/
def idxOfFirst (a : Char) : List Char → Option Nat
  | [] => none
  | c :: rest => if c = a then some 0 else (idxOfFirst a rest).map (fun i => i + 1)

/-- Go `strings.LastIndexByte` at character granularity. -/
def idxOfLast (a : Char) (s : List Char) : Option Nat :=
  (idxOfFirst a s.reverse).map (fun i => s.length - 1 - i)

/-! ### List arena helpers -/

/-- Positional lookup in a list (arena dereference). -/
def nth {α : Type} : List α → Nat → Option α
  | [], _ => none
  | x :: _, 0 => some x
  | _ :: xs, n + 1 => nth xs n

/-- Positional update in a list (arena store). -/
def setNth {α : Type} : List α → Nat → α → List α
  | [], _, _ => []
  | _ :: xs, 0, a => a :: xs
  | x :: xs, n + 1, a => x :: setNth xs n a

/-! ### The SampleTags abstraction (modelled from the spec) -/

/-- Modelled from the spec: the external tag-set abstraction, a mapping
from tag keys to values, consumed via construct-from-mapping and an
order-independent semantic equality.  The `SampleTags` type is not part
of src/metrics/metric.go. -/
structure SampleTags where
  entries : List (List Char × List Char)
deriving DecidableEq

/-- Lookup of a key in the entry list of a tag mapping. -/
def lookupTag : List (List Char × List Char) → List Char → Option (List Char)
  | [], _ => none
  | e :: rest, k => if e.1 = k then some e.2 else lookupTag rest k

/-- Modelled from the spec: semantic equality of tag sets, order-independent
(two tag sets are equal when they bind exactly the same keys to the same
values, regardless of entry order). -/
def SampleTags.IsEqual (a b : SampleTags) : Bool :=
  a.entries.all (fun e => decide (lookupTag b.entries e.1 = some e.2)) &&
  b.entries.all (fun e => decide (lookupTag a.entries e.1 = some e.2))

/-- Modelled from the spec: construct-from-mapping, turning a key→value
mapping into the canonical tag set. -/
def IntoSampleTags (m : List (List Char × List Char)) : SampleTags := ⟨m⟩

/-- Go map store `rawTags[key] = value`: overwrite if the key is present
(last write wins), otherwise add the binding. -/
def mapSet : List (List Char × List Char) → List Char → List Char → List (List Char × List Char)
  | [], k, v => [(k, v)]
  | e :: rest, k, v => if e.1 = k then (k, v) :: rest else e :: mapSet rest k v

/-- One iteration of the AddSubmetric segment loop: skip empty segments,
split on the first colon, trim and quote-strip key (and value, when a colon
exists; a colon-less segment maps its key to the empty value). -/
def procSeg (acc : List (List Char × List Char)) (kv : List Char) : List (List Char × List Char) :=
  if kv = [] then acc
  else
    match splitFirst colon kv with
    | (p0, none) => mapSet acc (quoteStrip (trimSpace p0)) []
    | (p0, some p1) => mapSet acc (quoteStrip (trimSpace p0)) (quoteStrip (trimSpace p1))

/-- The `rawTags` map built by AddSubmetric from the comma-split segments. -/
def buildRawTags (kvs : List (List Char)) : List (List Char × List Char) :=
  kvs.foldl procSeg []

/-! ### Metric data model -/

/-- MetricType is an integer enumeration in the source repository
(declaration outside src/metrics/metric.go); modelled as Nat. -/
abbrev MetricType := Nat

/-- ValueType is an integer enumeration in the source repository
(declaration outside src/metrics/metric.go); modelled as Nat. -/
abbrev ValueType := Nat

def Counter : MetricType := 0
def Gauge : MetricType := 1
def Trend : MetricType := 2
def Rate : MetricType := 3

def Default : ValueType := 0

/-- The sink variants; their aggregation internals are out of scope, only
which variant was selected matters. -/
inductive Sink
  | counterSink
  | gaugeSink
  | trendSink
  | rateSink
deriving DecidableEq

/-- A Metric (src/metrics/metric.go).  `submetrics` holds arena indices of
the derived submetrics; `sub` is the backing-metric back-reference
(an arena index of a Submetric); `sink` is None exactly when the Go field
would be nil. -/
structure Metric where
  name : List Char
  type : MetricType
  contains : ValueType
  submetrics : List Nat
  sub : Option Nat
  sink : Option Sink
deriving DecidableEq

/-- The kind-to-sink switch inside newMetric. -/
def sinkForType (mt : MetricType) : Option Sink :=
  if mt = Counter then some Sink.counterSink
  else if mt = Gauge then some Sink.gaugeSink
  else if mt = Trend then some Sink.trendSink
  else if mt = Rate then some Sink.rateSink
  else none

/-- newMetric (src/metrics/metric.go): variadic value type defaulting to
Default; an unrecognized metric type yields no metric (Go returns nil). -/
def newMetric (name : List Char) (mt : MetricType) (vt : List ValueType) : Option Metric :=
  match sinkForType mt with
  | none => none
  | some s =>
    some ⟨name, mt, (match vt with | [] => Default | v :: _ => v), [], none, some s⟩

/-- A Submetric (src/metrics/metric.go): `metric` is the arena index of its
backing metric, `parent` the arena index of the parent metric. -/
structure Submetric where
  name : List Char
  suffix : List Char
  tags : SampleTags
  metric : Nat
  parent : Nat
deriving DecidableEq

/-- The allocation state: arenas of metrics and submetrics; Go pointers
are embedded as indices into these arenas. -/
structure MState where
  metrics : List Metric
  subs : List Submetric
deriving DecidableEq

/-- The two error returns of AddSubmetric, with the data interpolated into
the Go error message. -/
inductive AddErr
  | emptyCriteria (metricName : List Char)
  | duplicate (params : List Char) (metricName : List Char) (existingName : List Char)
deriving DecidableEq

/-- Outcome of AddSubmetric: an error return (carrying the resulting state),
a nil-pointer dereference (Go would panic when newMetric returns nil), or
success with the arena indices of the new submetric and backing metric. -/
inductive AddResult
  | err (e : AddErr) (post : MState)
  | nilPanic
  | ok (subIdx : Nat) (metricIdx : Nat) (post : MState)
deriving DecidableEq

/-- The duplicate scan of AddSubmetric: the name of the first existing
submetric whose tag set is semantically equal to `tags`, if any. -/
def findDup (arena : List Submetric) : List Nat → SampleTags → Option (List Char)
  | [], _ => none
  | i :: rest, tags =>
    match nth arena i with
    | none => findDup arena rest tags
    | some sm => if sm.tags.IsEqual tags then some sm.name else findDup arena rest tags

/-- Update only the `sub` back-reference of a metric
(Go `subMetricMetric.Sub = subMetric`). -/
def setSub (m : Metric) (s : Option Nat) : Metric :=
  ⟨m.name, m.type, m.contains, m.submetrics, s, m.sink⟩

/-- Metric.AddSubmetric (src/metrics/metric.go): trim the clause, reject the
empty clause, build the raw tag map from comma-split segments, build the
canonical tag set, reject a duplicate of an existing submetric, then create
the Submetric and its backing metric and append the submetric to the
parent's list. -/
def addSubmetric (st : MState) (p : Nat) (keyValues0 : List Char) : AddResult :=
  match nth st.metrics p with
  | none => AddResult.nilPanic
  | some m =>
    if trimSpace keyValues0 = [] then AddResult.err (AddErr.emptyCriteria m.name) st
    else
      match findDup st.subs m.submetrics
          (IntoSampleTags (buildRawTags (goSplit comma (trimSpace keyValues0)))) with
      | some existing =>
        AddResult.err (AddErr.duplicate (trimSpace keyValues0) m.name existing) st
      | none =>
        match newMetric (m.name ++ lbrace :: (trimSpace keyValues0 ++ [rbrace]))
            m.type [m.contains] with
        | none => AddResult.nilPanic
        | some backing0 =>
          AddResult.ok st.subs.length st.metrics.length
            ⟨setNth (st.metrics ++ [setSub backing0 (some st.subs.length)]) p
               ⟨m.name, m.type, m.contains, m.submetrics ++ [st.subs.length], m.sub, m.sink⟩,
             st.subs ++
               [⟨m.name ++ lbrace :: (trimSpace keyValues0 ++ [rbrace]), trimSpace keyValues0,
                 IntoSampleTags (buildRawTags (goSplit comma (trimSpace keyValues0))),
                 st.metrics.length, p⟩]⟩

/-! ### ParseMetricName -/

/-- The sentinel error category (`errors.New`). -/
inductive ErrBase
  | metricNameParsing
deriving DecidableEq

/-- The detail clause interpolated by each `fmt.Errorf` call in
ParseMetricName. -/
inductive PDetail
  | unmatched (name : List Char)
  | reversed (name : List Char)
  | lacksClosing (name : List Char)
  | malformedTag (clause : List Char)
deriving DecidableEq

/-- A Go error value: either a base error (`errors.New`) or a wrapping
error (`fmt.Errorf` with a %w verb) around an inner error. -/
inductive GoErr
  | base (b : ErrBase)
  | wrap (inner : GoErr) (d : PDetail)
deriving DecidableEq

/-- `errors.Is`: does the wrap chain of `e` contain `target`. -/
def GoErr.chainHas : GoErr → GoErr → Bool
  | GoErr.base b, target => decide (GoErr.base b = target)
  | GoErr.wrap inner d, target =>
    decide (GoErr.wrap inner d = target) || inner.chainHas target

/-- ErrMetricNameParsing (src/metrics/metric.go). -/
def errMetricNameParsing : GoErr := GoErr.base ErrBase.metricNameParsing

/-- The per-clause validity test of the ParseMetricName loop:
`len(keyValue) != 2 || keyValue[1] == ""` fails; i.e. a clause is valid
when it has a colon and the text after the first colon is non-empty
(no trimming before this check). -/
def validTag (t : List Char) : Bool :=
  match (splitFirst colon t).2 with
  | none => false
  | some v => decide (v ≠ [])

/-- The tag-validation loop of ParseMetricName: error at the first invalid
clause (reporting that clause), otherwise return the clauses trimmed of
surrounding whitespace, in order. -/
def parseTags : List (List Char) → Except GoErr (List (List Char))
  | [] => Except.ok []
  | t :: rest =>
    if validTag t then
      match parseTags rest with
      | Except.error e => Except.error e
      | Except.ok rs => Except.ok (trimSpace t :: rs)
    else Except.error (GoErr.wrap errMetricNameParsing (PDetail.malformedTag t))

/-- ParseMetricName (src/metrics/metric.go). -/
def parseMetricName (name : List Char) : Except GoErr (List Char × List (List Char)) :=
  match idxOfFirst lbrace name, idxOfLast rbrace name with
  | none, none => Except.ok (name, [])
  | some _, none => Except.error (GoErr.wrap errMetricNameParsing (PDetail.unmatched name))
  | none, some _ => Except.error (GoErr.wrap errMetricNameParsing (PDetail.unmatched name))
  | some o, some c =>
    if c < o then Except.error (GoErr.wrap errMetricNameParsing (PDetail.reversed name))
    else if c ≠ name.length - 1 then
      Except.error (GoErr.wrap errMetricNameParsing (PDetail.lacksClosing name))
    else
      match parseTags (goSplit comma ((name.take c).drop (o + 1))) with
      | Except.error e => Except.error e
      | Except.ok ts => Except.ok (name.take o, ts)

/-! ### Helper lemmas: trimming -/

theorem dropWhile_head_false {p : Char → Bool} {l : List Char} {c : Char}
    (h : (l.dropWhile p).head? = some c) : p c = false := by
  induction l with
  | nil => simp [List.dropWhile] at h
  | cons x xs ih =>
    by_cases hx : p x
    · exact ih (by simpa [List.dropWhile, hx] using h)
    · simp [List.dropWhile, hx] at h
      simpa [← h] using hx

theorem dropWhile_getLast {p : Char → Bool} {l : List Char}
    (h : l.dropWhile p ≠ []) : (l.dropWhile p).getLast? = l.getLast? := by
  induction l with
  | nil => simp [List.dropWhile] at h
  | cons x xs ih =>
    by_cases hx : p x
    · have hxs : xs.dropWhile p ≠ [] := by simpa [List.dropWhile, hx] using h
      have hxs2 : xs ≠ [] := by
        intro e; rw [e] at hxs; simp [List.dropWhile] at hxs
      rw [List.dropWhile_cons_of_pos hx, ih hxs]
      cases xs with
      | nil => exact absurd rfl hxs2
      | cons y ys => rw [List.getLast?_cons_cons]
    · rw [List.dropWhile_cons_of_neg hx]

theorem trimBoth_head_false {p : Char → Bool} {s : List Char} {c : Char}
    (h : (trimBoth p s).head? = some c) : p c = false := by
  unfold trimBoth at h
  rw [List.head?_reverse] at h
  have hne : (s.dropWhile p).reverse.dropWhile p ≠ [] := by
    intro e; rw [e] at h; simp at h
  rw [dropWhile_getLast hne, List.getLast?_reverse] at h
  exact dropWhile_head_false h

theorem trimBoth_getLast_false {p : Char → Bool} {s : List Char} {c : Char}
    (h : (trimBoth p s).getLast? = some c) : p c = false := by
  unfold trimBoth at h
  rw [List.getLast?_reverse] at h
  exact dropWhile_head_false h

theorem dropWhile_eq_self_of_head {p : Char → Bool} {l : List Char}
    (h : ∀ c, l.head? = some c → p c = false) : l.dropWhile p = l := by
  cases l with
  | nil => rfl
  | cons x xs =>
    have := h x rfl
    simp [List.dropWhile, this]

theorem trimBoth_idem (p : Char → Bool) (s : List Char) :
    trimBoth p (trimBoth p s) = trimBoth p s := by
  have h1 : (trimBoth p s).dropWhile p = trimBoth p s :=
    dropWhile_eq_self_of_head (fun c hc => trimBoth_head_false hc)
  have h2 : (trimBoth p s).reverse.dropWhile p = (trimBoth p s).reverse := by
    refine dropWhile_eq_self_of_head (fun c hc => ?_)
    rw [List.head?_reverse] at hc
    exact trimBoth_getLast_false hc
  show ((((trimBoth p s).dropWhile p).reverse.dropWhile p).reverse) = trimBoth p s
  rw [h1, h2, List.reverse_reverse]

theorem dropWhile_all_false {p : Char → Bool} {l : List Char}
    (h : ∀ c ∈ l, p c = false) : l.dropWhile p = l := by
  induction l with
  | nil => rfl
  | cons x xs ih =>
    have hx := h x (List.mem_cons_self x xs)
    simp [List.dropWhile, hx]

theorem trimBoth_id_of_all_false {p : Char → Bool} {l : List Char}
    (h : ∀ c ∈ l, p c = false) : trimBoth p l = l := by
  unfold trimBoth
  rw [dropWhile_all_false h, dropWhile_all_false (by intro c hc; exact h c (List.mem_reverse.mp hc)),
    List.reverse_reverse]

/-! ### Helper lemmas: splitting -/

theorem splitAux_all_sep {sep : Char} {s : List Char}
    (h : ∀ c ∈ s, c = sep) : ∀ seg ∈ splitAux sep s [], seg = [] := by
  induction s with
  | nil => intro seg hseg; simpa [splitAux] using hseg
  | cons x xs ih =>
    intro seg hseg
    have hx : x = sep := h x (List.mem_cons_self x xs)
    rw [splitAux, if_pos hx] at hseg
    rcases List.mem_cons.mp hseg with h1 | h2
    · simpa using h1
    · exact ih (fun c hc => h c (List.mem_cons_of_mem _ hc)) seg h2

theorem foldl_procSeg_all_empty {kvs : List (List Char)}
    (h : ∀ seg ∈ kvs, seg = []) (acc : List (List Char × List Char)) :
    kvs.foldl procSeg acc = acc := by
  induction kvs generalizing acc with
  | nil => rfl
  | cons x xs ih =>
    have hx : x = [] := h x (List.mem_cons_self x xs)
    rw [List.foldl_cons]
    rw [show procSeg acc x = acc by rw [hx]; rfl]
    exact ih (fun seg hseg => h seg (List.mem_cons_of_mem _ hseg)) acc

theorem buildRawTags_all_commas {s : List Char} (h : ∀ c ∈ s, c = comma) :
    buildRawTags (goSplit comma s) = [] :=
  foldl_procSeg_all_empty (splitAux_all_sep h) []

/-! ### Helper lemmas: indices of delimiters -/

theorem idxOfFirst_not_mem {a : Char} {s : List Char} (h : a ∉ s) :
    idxOfFirst a s = none := by
  induction s with
  | nil => rfl
  | cons x xs ih =>
    have hx : ¬ x = a := fun e => h (by rw [e]; exact List.mem_cons_self a xs)
    rw [idxOfFirst, if_neg hx, ih (fun hm => h (List.mem_cons_of_mem _ hm))]
    rfl

theorem idxOfFirst_append {a : Char} {pre : List Char} (rest : List Char) (h : a ∉ pre) :
    idxOfFirst a (pre ++ a :: rest) = some pre.length := by
  induction pre with
  | nil => simp [idxOfFirst]
  | cons c cs ih =>
    have hc : ¬ c = a := fun e => h (by rw [e]; exact List.mem_cons_self a cs)
    rw [List.cons_append, idxOfFirst, if_neg hc,
      ih (fun hm => h (List.mem_cons_of_mem _ hm))]
    rfl

theorem idxOfLast_not_mem {a : Char} {s : List Char} (h : a ∉ s) :
    idxOfLast a s = none := by
  unfold idxOfLast
  rw [idxOfFirst_not_mem (fun hm => h (List.mem_reverse.mp hm))]
  rfl

theorem idxOfLast_concat (a : Char) (A : List Char) :
    idxOfLast a (A ++ [a]) = some A.length := by
  unfold idxOfLast
  rw [List.reverse_append]
  simp only [List.reverse_cons, List.reverse_nil, List.nil_append, List.singleton_append]
  rw [show idxOfFirst a (a :: A.reverse) = some 0 by rw [idxOfFirst, if_pos rfl]]
  simp

/-! ### Helper lemmas: arena access -/

theorem nth_append_left {α : Type} {l₁ l₂ : List α} {i : Nat} (h : i < l₁.length) :
    nth (l₁ ++ l₂) i = nth l₁ i := by
  induction l₁ generalizing i with
  | nil => simp at h
  | cons x xs ih =>
    cases i with
    | zero => rfl
    | succ i => exact ih (Nat.lt_of_succ_lt_succ h)

theorem nth_append_length {α : Type} (l : List α) (x : α) :
    nth (l ++ [x]) l.length = some x := by
  induction l with
  | nil => rfl
  | cons y ys ih => exact ih

theorem nth_some_lt {α : Type} {l : List α} {i : Nat} {x : α} (h : nth l i = some x) :
    i < l.length := by
  induction l generalizing i with
  | nil => simp [nth] at h
  | cons y ys ih =>
    cases i with
    | zero => simp
    | succ i => exact Nat.succ_lt_succ (ih h)

theorem nth_setNth_self {α : Type} {l : List α} {p : Nat} (a : α) (h : p < l.length) :
    nth (setNth l p a) p = some a := by
  induction l generalizing p with
  | nil => simp at h
  | cons x xs ih =>
    cases p with
    | zero => rfl
    | succ p => exact ih (Nat.lt_of_succ_lt_succ h)

theorem nth_setNth_ne {α : Type} {l : List α} {p j : Nat} (a : α) (h : j ≠ p) :
    nth (setNth l p a) j = nth l j := by
  induction l generalizing p j with
  | nil => rfl
  | cons x xs ih =>
    cases p with
    | zero =>
      cases j with
      | zero => exact absurd rfl h
      | succ j => rfl
    | succ p =>
      cases j with
      | zero => rfl
      | succ j => exact ih (fun e => h (by rw [e]))

/-! ### Helper lemmas: parseTags and parseMetricName -/

theorem parseTags_all_valid {l : List (List Char)}
    (h : ∀ t ∈ l, validTag t = true) : parseTags l = Except.ok (l.map trimSpace) := by
  induction l with
  | nil => rfl
  | cons t rest ih =>
    rw [parseTags, if_pos (h t (List.mem_cons_self t rest)),
      ih (fun u hu => h u (List.mem_cons_of_mem _ hu))]
    rfl

theorem parseTags_first_invalid {l : List (List Char)} {t : List Char}
    (ht : t ∈ l) (hbad : validTag t = false) :
    ∃ bad, validTag bad = false ∧ bad ∈ l ∧
      parseTags l = Except.error (GoErr.wrap errMetricNameParsing (PDetail.malformedTag bad)) := by
  induction l with
  | nil => cases ht
  | cons x xs ih =>
    by_cases hx : validTag x = true
    · have htxs : t ∈ xs := by
        rcases List.mem_cons.mp ht with h1 | h2
        · rw [h1] at hbad; rw [hx] at hbad; cases hbad
        · exact h2
      obtain ⟨bad, hb1, hb2, hb3⟩ := ih htxs
      refine ⟨bad, hb1, List.mem_cons_of_mem _ hb2, ?_⟩
      rw [parseTags, if_pos hx, hb3]
    · refine ⟨x, Bool.not_eq_true _ ▸ hx, List.mem_cons_self x xs, ?_⟩
      rw [parseTags, if_neg hx]

theorem parseTags_error_shape {l : List (List Char)} {e : GoErr}
    (h : parseTags l = Except.error e) :
    ∃ t, e = GoErr.wrap errMetricNameParsing (PDetail.malformedTag t) := by
  induction l with
  | nil => cases h
  | cons x xs ih =>
    rw [parseTags] at h
    by_cases hx : validTag x = true
    · rw [if_pos hx] at h
      cases he : parseTags xs with
      | error e2 => rw [he] at h; cases h; exact ih he
      | ok rs => rw [he] at h; cases h
    · rw [if_neg hx] at h
      cases h
      exact ⟨x, rfl⟩

/-- For a name of the shape `pre ++ lbrace :: inner ++ [rbrace]` with no
opening brace in `pre`, parseMetricName reduces to the tag-validation loop
over the comma-split of `inner`. -/
theorem parseMetricName_sandwich (pre inner : List Char) (hpre : lbrace ∉ pre) :
    parseMetricName (pre ++ lbrace :: (inner ++ [rbrace])) =
      match parseTags (goSplit comma inner) with
      | Except.error e => Except.error e
      | Except.ok ts => Except.ok (pre, ts) := by
  have hopen : idxOfFirst lbrace (pre ++ lbrace :: (inner ++ [rbrace])) = some pre.length :=
    idxOfFirst_append (inner ++ [rbrace]) hpre
  have hsplit : pre ++ lbrace :: (inner ++ [rbrace]) = (pre ++ lbrace :: inner) ++ [rbrace] := by
    simp
  have hclose : idxOfLast rbrace (pre ++ lbrace :: (inner ++ [rbrace])) =
      some (pre ++ lbrace :: inner).length := by
    rw [hsplit]; exact idxOfLast_concat rbrace (pre ++ lbrace :: inner)
  have hlen : (pre ++ lbrace :: inner).length = pre.length + inner.length + 1 := by
    simp; omega
  have htotal : (pre ++ lbrace :: (inner ++ [rbrace])).length = pre.length + inner.length + 2 := by
    simp; omega
  rw [parseMetricName]
  simp only [hopen, hclose]
  rw [if_neg (by rw [hlen]; omega)]
  rw [if_neg (by rw [hlen, htotal]; omega)]
  have htake : (pre ++ lbrace :: (inner ++ [rbrace])).take (pre ++ lbrace :: inner).length =
      pre ++ lbrace :: inner := by
    rw [hsplit, List.take_left]
  have hdrop : (pre ++ lbrace :: inner).drop (pre.length + 1) = inner := by
    have : pre ++ lbrace :: inner = (pre ++ [lbrace]) ++ inner := by simp
    rw [this, show pre.length + 1 = (pre ++ [lbrace]).length by simp, List.drop_left]
  have htakeo : (pre ++ lbrace :: (inner ++ [rbrace])).take pre.length = pre := by
    rw [show (pre ++ lbrace :: (inner ++ [rbrace])).take pre.length =
      (pre ++ (lbrace :: (inner ++ [rbrace]))).take pre.length from rfl, List.take_left]
  rw [htake, hdrop, htakeo]

/-! ### Helper lemmas: findDup and addSubmetric inversion -/

theorem findDup_none_not_equal {arena : List Submetric} {idxs : List Nat} {tags : SampleTags}
    (h : findDup arena idxs tags = none) :
    ∀ i ∈ idxs, ∀ sm, nth arena i = some sm → sm.tags.IsEqual tags = false := by
  induction idxs with
  | nil => intro i hi; cases hi
  | cons j rest ih =>
    intro i hi sm hsm
    rw [findDup] at h
    rcases List.mem_cons.mp hi with h1 | h2
    · subst h1
      simp only [hsm] at h
      cases he : sm.tags.IsEqual tags with
      | false => rfl
      | true => simp only [he, if_true] at h; cases h
    · cases hj : nth arena j with
      | none => simp only [hj] at h; exact ih h i h2 sm hsm
      | some sm2 =>
        simp only [hj] at h
        cases he : sm2.tags.IsEqual tags with
        | false => simp only [he, Bool.false_eq_true, if_false] at h; exact ih h i h2 sm hsm
        | true => simp only [he, if_true] at h; cases h

theorem findDup_mem_some {arena : List Submetric} {idxs : List Nat} {tags : SampleTags}
    {i : Nat} (hi : i ∈ idxs) {sm : Submetric} (hsm : nth arena i = some sm)
    (heq : sm.tags.IsEqual tags = true) :
    ∃ nm, findDup arena idxs tags = some nm := by
  induction idxs with
  | nil => cases hi
  | cons j rest ih =>
    rw [findDup]
    cases hj : nth arena j with
    | none =>
      rcases List.mem_cons.mp hi with h1 | h2
      · subst h1; rw [hsm] at hj; cases hj
      · exact ih h2
    | some sm2 =>
      cases he : sm2.tags.IsEqual tags with
      | true => exact ⟨sm2.name, by simp only [he, if_true]⟩
      | false =>
        simp only [he, Bool.false_eq_true, if_false]
        rcases List.mem_cons.mp hi with h1 | h2
        · subst h1; rw [hsm] at hj; cases hj; rw [heq] at he; cases he
        · exact ih h2

/-- Inversion of a successful addSubmetric call: the guard conditions that
must have held and the exact shape of the result state. -/
theorem addSubmetric_ok_inv {st : MState} {p : Nat} {kv : List Char} {s b : Nat} {post : MState}
    (h : addSubmetric st p kv = AddResult.ok s b post) :
    ∃ m sk, nth st.metrics p = some m ∧
      trimSpace kv ≠ [] ∧
      findDup st.subs m.submetrics
        (IntoSampleTags (buildRawTags (goSplit comma (trimSpace kv)))) = none ∧
      sinkForType m.type = some sk ∧
      s = st.subs.length ∧ b = st.metrics.length ∧
      post = ⟨setNth
          (st.metrics ++
            [⟨m.name ++ lbrace :: (trimSpace kv ++ [rbrace]), m.type, m.contains, [],
              some st.subs.length, some sk⟩]) p
          ⟨m.name, m.type, m.contains, m.submetrics ++ [st.subs.length], m.sub, m.sink⟩,
        st.subs ++
          [⟨m.name ++ lbrace :: (trimSpace kv ++ [rbrace]), trimSpace kv,
            IntoSampleTags (buildRawTags (goSplit comma (trimSpace kv))),
            st.metrics.length, p⟩]⟩ := by
  unfold addSubmetric at h
  cases hm : nth st.metrics p with
  | none => simp only [hm] at h; cases h
  | some m =>
    simp only [hm] at h
    by_cases hempty : trimSpace kv = []
    · simp only [if_pos hempty] at h; cases h
    · simp only [if_neg hempty] at h
      cases hdup : findDup st.subs m.submetrics
          (IntoSampleTags (buildRawTags (goSplit comma (trimSpace kv)))) with
      | some ex => simp only [hdup] at h; cases h
      | none =>
        simp only [hdup] at h
        cases hsk : sinkForType m.type with
        | none =>
          simp only [show newMetric (m.name ++ lbrace :: (trimSpace kv ++ [rbrace])) m.type
            [m.contains] = none by rw [newMetric, hsk]] at h
          cases h
        | some sk =>
          simp only [show newMetric (m.name ++ lbrace :: (trimSpace kv ++ [rbrace])) m.type
            [m.contains] = some ⟨m.name ++ lbrace :: (trimSpace kv ++ [rbrace]), m.type,
              m.contains, [], none, some sk⟩ by rw [newMetric, hsk]] at h
          cases h
          exact ⟨m, sk, rfl, hempty, hdup, hsk, rfl, rfl, rfl⟩

/-! ### Helper lemmas: quote stripping inside the tag map -/

/-- A string neither starts nor ends with a quote character. -/
def quoteFreeEnds (l : List Char) : Prop :=
  (∀ c, l.head? = some c → isQuoteCut c = false) ∧
  (∀ c, l.getLast? = some c → isQuoteCut c = false)

theorem quoteStrip_quoteFreeEnds (s : List Char) : quoteFreeEnds (quoteStrip s) :=
  ⟨fun _ hc => trimBoth_head_false hc, fun _ hc => trimBoth_getLast_false hc⟩

theorem nil_quoteFreeEnds : quoteFreeEnds [] := by
  refine ⟨fun c hc => ?_, fun c hc => ?_⟩
  · cases hc
  · simp at hc

theorem mem_mapSet {m : List (List Char × List Char)} {k v : List Char}
    {e : List Char × List Char} (h : e ∈ mapSet m k v) : e = (k, v) ∨ e ∈ m := by
  induction m with
  | nil => simpa [mapSet] using h
  | cons x xs ih =>
    rw [mapSet] at h
    by_cases hx : x.1 = k
    · rw [if_pos hx] at h
      rcases List.mem_cons.mp h with h1 | h2
      · exact Or.inl h1
      · exact Or.inr (List.mem_cons_of_mem _ h2)
    · rw [if_neg hx] at h
      rcases List.mem_cons.mp h with h1 | h2
      · exact Or.inr (h1 ▸ List.mem_cons_self x xs)
      · rcases ih h2 with h3 | h4
        · exact Or.inl h3
        · exact Or.inr (List.mem_cons_of_mem _ h4)

theorem mem_procSeg {acc : List (List Char × List Char)} {kv : List Char}
    {e : List Char × List Char} (h : e ∈ procSeg acc kv) :
    (quoteFreeEnds e.1 ∧ quoteFreeEnds e.2) ∨ e ∈ acc := by
  rw [procSeg] at h
  by_cases hkv : kv = []
  · rw [if_pos hkv] at h; exact Or.inr h
  · rw [if_neg hkv] at h
    cases hsp : (splitFirst colon kv).2 with
    | none =>
      rw [show (match splitFirst colon kv with
          | (p0, none) => mapSet acc (quoteStrip (trimSpace p0)) []
          | (p0, some p1) =>
            mapSet acc (quoteStrip (trimSpace p0)) (quoteStrip (trimSpace p1))) =
          mapSet acc (quoteStrip (trimSpace (splitFirst colon kv).1)) [] by
        rcases hfull : splitFirst colon kv with ⟨p0, p2⟩
        rw [hfull] at hsp; cases hsp; rfl] at h
      rcases mem_mapSet h with h1 | h2
      · rw [h1]
        exact Or.inl ⟨quoteStrip_quoteFreeEnds _, nil_quoteFreeEnds⟩
      · exact Or.inr h2
    | some p1 =>
      rw [show (match splitFirst colon kv with
          | (p0, none) => mapSet acc (quoteStrip (trimSpace p0)) []
          | (p0, some p1) =>
            mapSet acc (quoteStrip (trimSpace p0)) (quoteStrip (trimSpace p1))) =
          mapSet acc (quoteStrip (trimSpace (splitFirst colon kv).1))
            (quoteStrip (trimSpace p1)) by
        rcases hfull : splitFirst colon kv with ⟨p0, p2⟩
        rw [hfull] at hsp; cases hsp; rfl] at h
      rcases mem_mapSet h with h1 | h2
      · rw [h1]
        exact Or.inl ⟨quoteStrip_quoteFreeEnds _, quoteStrip_quoteFreeEnds _⟩
      · exact Or.inr h2

theorem mem_foldl_procSeg {kvs : List (List Char)} {acc : List (List Char × List Char)}
    {e : List Char × List Char} (h : e ∈ kvs.foldl procSeg acc) :
    (quoteFreeEnds e.1 ∧ quoteFreeEnds e.2) ∨ e ∈ acc := by
  induction kvs generalizing acc with
  | nil => exact Or.inr h
  | cons x xs ih =>
    rw [List.foldl_cons] at h
    rcases ih h with h1 | h2
    · exact Or.inl h1
    · exact mem_procSeg h2

/-! ### The no-duplicate-tag-sets invariant -/

/-- No two (dereferenceable) entries of the index list carry semantically
equal tag sets, in scan order. -/
def NoDupTags (arena : List Submetric) (idxs : List Nat) : Prop :=
  List.Pairwise (fun i j => ∀ a b, nth arena i = some a → nth arena j = some b →
    a.tags.IsEqual b.tags = false) idxs

/-! ### Concrete states and result extractors used by witnesses -/

/-- A fresh counter metric named m. -/
def mC : Metric := ⟨("m".toList), Counter, Default, [], none, some Sink.counterSink⟩

/-- A state holding just the fresh parent metric. -/
def st0 : MState := ⟨[mC], []⟩

/-- The post-state of a successful AddSubmetric call (the argument state
when the result is not a success). -/
def okPost (r : AddResult) (d : MState) : MState :=
  match r with
  | AddResult.ok _ _ post => post
  | _ => d

/-- The submetric created by a successful AddSubmetric call. -/
def okSub (r : AddResult) : Option Submetric :=
  match r with
  | AddResult.ok s _ post => nth post.subs s
  | _ => none

/-- Whether an AddSubmetric outcome is the duplicate-submetric error. -/
def AddResult.isDup : AddResult → Bool
  | AddResult.err (AddErr.duplicate _ _ _) _ => true
  | _ => false

/-- Whether an AddSubmetric outcome is a success. -/
def AddResult.isOk : AddResult → Bool
  | AddResult.ok _ _ _ => true
  | _ => false

/-- Whether a ParseMetricName outcome is an error. -/
def isParseErr : Except GoErr (List Char × List (List Char)) → Bool
  | Except.error _ => true
  | Except.ok _ => false

/-- The canonical tag set of the clause status:200. -/
def tagsW : SampleTags :=
  IntoSampleTags (buildRawTags (goSplit comma ("status:200".toList)))

/-- A submetric of mC carrying tagsW. -/
def smW : Submetric :=
  ⟨("m\x7bstatus:200\x7d".toList), ("status:200".toList), tagsW, 1, 0⟩

/-- The parent metric with smW registered. -/
def mW : Metric := ⟨("m".toList), Counter, Default, [0], none, some Sink.counterSink⟩

/-- A state in which the parent already owns a submetric with tagsW. -/
def stW : MState := ⟨[mW], [smW]⟩

/-! ### Claim C3 -/

/-- Claim C3: whenever AddSubmetric returns an error (empty criteria or
duplicate tag set), the call is atomic — the resulting allocation state is
exactly the pre-call state, so the parent's Submetrics sequence is
unchanged and no Submetric and no backing Metric is created or appended. -/
theorem addSubmetric_error_atomic (st : MState) (p : Nat) (kv : List Char)
    (e : AddErr) (post : MState)
    (h : addSubmetric st p kv = AddResult.err e post) : post = st := by
  unfold addSubmetric at h
  cases hm : nth st.metrics p with
  | none => simp only [hm] at h; cases h
  | some m =>
    simp only [hm] at h
    by_cases hempty : trimSpace kv = []
    · simp only [if_pos hempty] at h
      cases h
      rfl
    · simp only [if_neg hempty] at h
      cases hdup : findDup st.subs m.submetrics
          (IntoSampleTags (buildRawTags (goSplit comma (trimSpace kv)))) with
      | some ex =>
        simp only [hdup] at h
        cases h
        rfl
      | none =>
        simp only [hdup] at h
        cases hsk : sinkForType m.type with
        | none =>
          simp only [show newMetric (m.name ++ lbrace :: (trimSpace kv ++ [rbrace])) m.type
            [m.contains] = none by rw [newMetric, hsk]] at h
          cases h
        | some sk =>
          simp only [show newMetric (m.name ++ lbrace :: (trimSpace kv ++ [rbrace])) m.type
            [m.contains] = some ⟨m.name ++ lbrace :: (trimSpace kv ++ [rbrace]), m.type,
              m.contains, [], none, some sk⟩ by rw [newMetric, hsk]] at h
          cases h

/-- The post-state carried by an error outcome. -/
def errPost (r : AddResult) (d : MState) : MState :=
  match r with
  | AddResult.err _ post => post
  | _ => d

/-- Witness for C3: the empty-clause error on a concrete fresh metric
leaves the state untouched. -/
theorem addSubmetric_error_atomic_witness : errPost (addSubmetric st0 0 []) st0 = st0 := by
  have h : addSubmetric st0 0 [] = AddResult.err (AddErr.emptyCriteria ("m".toList)) st0 := rfl
  rw [h]
  exact addSubmetric_error_atomic st0 0 [] (AddErr.emptyCriteria ("m".toList)) st0 h

/-! ### Claim C9 -/

/-- Claim C9: a clause that is empty after trimming surrounding whitespace
makes AddSubmetric fail with the empty-criteria error naming the parent
metric, and the state (hence the submetric sequence) is unchanged. -/
theorem addSubmetric_empty_criteria (st : MState) (p : Nat) (m : Metric) (kv : List Char)
    (hm : nth st.metrics p = some m) (h : trimSpace kv = []) :
    addSubmetric st p kv = AddResult.err (AddErr.emptyCriteria m.name) st := by
  unfold addSubmetric
  simp only [hm]
  rw [if_pos h]

/-- Witness for C9: a whitespace-only clause on a concrete fresh metric. -/
theorem addSubmetric_empty_criteria_witness :
    addSubmetric st0 0 ("  ".toList) = AddResult.err (AddErr.emptyCriteria ("m".toList)) st0 :=
  addSubmetric_empty_criteria st0 0 mC ("  ".toList) rfl (by decide)

/-! ### Claim C2 (corrected) -/

/-- Counterexample for C2 as stated: the claim says a clause with an empty
key (as in m\x7b:v\x7d) and a clause whose value is empty after trimming
(as in m\x7ba: \x7d) must fail; the code accepts both — the check is only
that a colon exists and the untrimmed text after it is non-empty. -/
theorem parse_tag_grammar_counterexample :
    parseMetricName ("m\x7b:v\x7d".toList) = Except.ok (("m".toList), [(":v".toList)]) ∧
    parseMetricName ("m\x7ba: \x7d".toList) = Except.ok (("m".toList), [("a:".toList)]) :=
  ⟨rfl, rfl⟩

/-- Claim C2 amended: for matched, correctly placed braces, ParseMetricName
fails with a malformed-tag-expression error reporting an offending clause
exactly when some clause between the braces has no colon or has a literally
empty remainder after its first colon; empty keys and whitespace-only
values are accepted (there is no trimming before the check). -/
theorem parse_malformed_tag_amended :
    (∀ pre inner t, lbrace ∉ pre → t ∈ goSplit comma inner → validTag t = false →
      ∃ bad, validTag bad = false ∧ bad ∈ goSplit comma inner ∧
        parseMetricName (pre ++ lbrace :: (inner ++ [rbrace])) =
          Except.error (GoErr.wrap errMetricNameParsing (PDetail.malformedTag bad))) ∧
    (∀ t, validTag t = true ↔ ∃ v, (splitFirst colon t).2 = some v ∧ v ≠ []) := by
  constructor
  · intro pre inner t hpre ht hbad
    obtain ⟨bad, hb1, hb2, hb3⟩ := parseTags_first_invalid ht hbad
    refine ⟨bad, hb1, hb2, ?_⟩
    rw [parseMetricName_sandwich pre inner hpre, hb3]
  · intro t
    rw [validTag]
    cases hsp : (splitFirst colon t).2 with
    | none => simp
    | some v => simp

/-- Witness for the amended C2: the no-colon clause in m\x7ba\x7d is
rejected as a malformed tag expression. -/
theorem parse_malformed_tag_amended_witness :
    isParseErr (parseMetricName ("m\x7ba\x7d".toList)) = true := by
  have he : ("m\x7ba\x7d".toList) = ("m".toList) ++ lbrace :: (("a".toList) ++ [rbrace]) := by
    decide
  obtain ⟨bad, _, _, h3⟩ := parse_malformed_tag_amended.1 ("m".toList) ("a".toList)
    ("a".toList) (by decide) (by decide) (by decide)
  rw [he, h3]
  rfl

/-! ### Claim C7 -/

/-- Claim C7: ParseMetricName success contract — a string with neither
brace is returned unchanged with no clauses; a well-formed braced
expression yields the text before the opening brace and the clauses,
each trimmed of surrounding whitespace, in original order. -/
theorem parse_success_contract :
    (∀ s, lbrace ∉ s → rbrace ∉ s → parseMetricName s = Except.ok (s, [])) ∧
    (∀ pre inner, lbrace ∉ pre →
      (∀ t ∈ goSplit comma inner, validTag t = true) →
      parseMetricName (pre ++ lbrace :: (inner ++ [rbrace])) =
        Except.ok (pre, (goSplit comma inner).map trimSpace)) := by
  constructor
  · intro s h1 h2
    unfold parseMetricName
    simp only [idxOfFirst_not_mem h1, idxOfLast_not_mem h2]
  · intro pre inner hpre hval
    rw [parseMetricName_sandwich pre inner hpre, parseTags_all_valid hval]

/-- Witness for C7: a plain name passes through unchanged, and a two-clause
expression parses into the base name and both clauses in order. -/
theorem parse_success_contract_witness :
    parseMetricName ("req".toList) = Except.ok (("req".toList), []) ∧
    parseMetricName ("req\x7bstatus:200,method:GET\x7d".toList) =
      Except.ok (("req".toList), [("status:200".toList), ("method:GET".toList)]) := by
  constructor
  · exact parse_success_contract.1 ("req".toList) (by decide) (by decide)
  · have he : ("req\x7bstatus:200,method:GET\x7d".toList) =
        ("req".toList) ++ lbrace :: (("status:200,method:GET".toList) ++ [rbrace]) := by
      decide
    rw [he, parse_success_contract.2 ("req".toList) ("status:200,method:GET".toList)
      (by decide) (by decide)]
    rfl

/-! ### Claim C8 -/

theorem chainHas_wrap_sentinel (d : PDetail) :
    (GoErr.wrap errMetricNameParsing d).chainHas errMetricNameParsing = true := by
  rw [GoErr.chainHas, errMetricNameParsing, GoErr.chainHas]
  simp

/-- Claim C8: ParseMetricName errors when exactly one delimiter is present
(unmatched), when the last closing brace precedes the first opening brace
(reversed), and when the last closing brace is not the final character
(trailing content); and every error it ever returns wraps the single
sentinel ErrMetricNameParsing in its chain. -/
theorem parse_failure_cases :
    (∀ s, (idxOfFirst lbrace s).isSome ≠ (idxOfLast rbrace s).isSome →
      parseMetricName s =
        Except.error (GoErr.wrap errMetricNameParsing (PDetail.unmatched s))) ∧
    (∀ s o c, idxOfFirst lbrace s = some o → idxOfLast rbrace s = some c → c < o →
      parseMetricName s =
        Except.error (GoErr.wrap errMetricNameParsing (PDetail.reversed s))) ∧
    (∀ s o c, idxOfFirst lbrace s = some o → idxOfLast rbrace s = some c → o ≤ c →
      c ≠ s.length - 1 →
      parseMetricName s =
        Except.error (GoErr.wrap errMetricNameParsing (PDetail.lacksClosing s))) ∧
    (∀ s e, parseMetricName s = Except.error e →
      e.chainHas errMetricNameParsing = true) := by
  refine ⟨?_, ?_, ?_, ?_⟩
  · intro s hne
    unfold parseMetricName
    cases ho : idxOfFirst lbrace s with
    | none =>
      cases hc : idxOfLast rbrace s with
      | none => rw [ho, hc] at hne; simp at hne
      | some c => simp only [ho, hc]
    | some o =>
      cases hc : idxOfLast rbrace s with
      | none => simp only [ho, hc]
      | some c => rw [ho, hc] at hne; simp at hne
  · intro s o c ho hc hlt
    unfold parseMetricName
    simp only [ho, hc]
    rw [if_pos hlt]
  · intro s o c ho hc hle hne
    unfold parseMetricName
    simp only [ho, hc]
    rw [if_neg (Nat.not_lt.mpr hle), if_pos hne]
  · intro s e h
    unfold parseMetricName at h
    cases ho : idxOfFirst lbrace s with
    | none =>
      cases hc : idxOfLast rbrace s with
      | none => simp only [ho, hc] at h; cases h
      | some c =>
        simp only [ho, hc] at h
        cases h
        exact chainHas_wrap_sentinel _
    | some o =>
      cases hc : idxOfLast rbrace s with
      | none =>
        simp only [ho, hc] at h
        cases h
        exact chainHas_wrap_sentinel _
      | some c =>
        simp only [ho, hc] at h
        by_cases h1 : c < o
        · rw [if_pos h1] at h
          cases h
          exact chainHas_wrap_sentinel _
        · rw [if_neg h1] at h
          by_cases h2 : c ≠ s.length - 1
          · rw [if_pos h2] at h
            cases h
            exact chainHas_wrap_sentinel _
          · rw [if_neg h2] at h
            cases hp : parseTags (goSplit comma ((s.take c).drop (o + 1))) with
            | error e2 =>
              simp only [hp] at h
              cases h
              obtain ⟨t, ht⟩ := parseTags_error_shape hp
              rw [ht]
              exact chainHas_wrap_sentinel _
            | ok ts => simp only [hp] at h; cases h

/-- Witness for C8: the three failure shapes on concrete inputs. -/
theorem parse_failure_cases_witness :
    parseMetricName ("req\x7bstatus:200".toList) =
      Except.error (GoErr.wrap errMetricNameParsing
        (PDetail.unmatched ("req\x7bstatus:200".toList))) ∧
    parseMetricName ("req\x7dx\x7b".toList) =
      Except.error (GoErr.wrap errMetricNameParsing
        (PDetail.reversed ("req\x7dx\x7b".toList))) ∧
    parseMetricName ("req\x7ba:b\x7dx".toList) =
      Except.error (GoErr.wrap errMetricNameParsing
        (PDetail.lacksClosing ("req\x7ba:b\x7dx".toList))) := by
  refine ⟨?_, ?_, ?_⟩
  · exact parse_failure_cases.1 ("req\x7bstatus:200".toList) (by decide)
  · exact parse_failure_cases.2.1 ("req\x7dx\x7b".toList) 5 3 (by decide) (by decide)
      (by decide)
  · exact parse_failure_cases.2.2.1 ("req\x7ba:b\x7dx".toList) 3 7 (by decide) (by decide)
      (by decide) (by decide)

/-! ### Claim C4 (corrected) -/

/-- Counterexample for C4 as stated: the claim says a quote is removed only
when the same quote character wraps both ends and only one layer deep, so
the mismatched \x22a\x27 and the doubly quoted \x27\x27a\x27\x27 would not
be fully stripped; the code (strings.Trim with cutset) strips both down to
the bare single character a, and the resulting rawTags key for the segment
\x22a\x27 is the bare a. -/
theorem quoteStrip_counterexample :
    quoteStrip [dquote, Char.ofNat 97, squote] = [Char.ofNat 97] ∧
    quoteStrip [squote, squote, Char.ofNat 97, squote, squote] = [Char.ofNat 97] ∧
    buildRawTags [[dquote, Char.ofNat 97, squote]] = [([Char.ofNat 97], [])] :=
  ⟨rfl, rfl, rfl⟩

/-- Claim C4 amended: the quote-stripping applied to keys and values in
AddSubmetric's clause parsing removes ALL leading and trailing quote
characters of either kind (matched or not, however many layers): every key
and value stored in the raw tag map neither starts nor ends with a quote
character, and stripping is idempotent. -/
theorem quoteStrip_amended :
    (∀ kvs e, e ∈ buildRawTags kvs → quoteFreeEnds e.1 ∧ quoteFreeEnds e.2) ∧
    (∀ s, quoteStrip (quoteStrip s) = quoteStrip s) := by
  constructor
  · intro kvs e h
    rcases mem_foldl_procSeg h with h1 | h2
    · exact h1
    · cases h2
  · intro s
    exact trimBoth_idem _ _

/-- Witness for the amended C4: the stripped key of a quoted segment starts
with a non-quote character. -/
theorem quoteStrip_amended_witness : isQuoteCut (Char.ofNat 107) = false := by
  have h := quoteStrip_amended.1 [("\x22k\x22:v".toList)] (("k".toList), ("v".toList))
    (by decide)
  exact h.1.1 (Char.ofNat 107) rfl

/-! ### Claim C5 (corrected) -/

/-- Counterexample for C5 as stated: the claim says the stored filter clause
(Suffix) is the clause exactly as supplied, raw and untrimmed; but
AddSubmetric trims the whole clause before storing it, so the successful
call with clause \x20a:1\x20 stores suffix a:1, which differs from the
supplied text. -/
theorem suffix_not_raw_counterexample :
    (okSub (addSubmetric st0 0 (" a:1 ".toList))).map Submetric.suffix =
      some ("a:1".toList) ∧
    ("a:1".toList) ≠ (" a:1 ".toList) := by
  exact ⟨rfl, by decide⟩

/-- Claim C5 amended: for every successful AddSubmetric call, the returned
Submetric's Suffix is the clause after trimming surrounding whitespace
(hence equal to the supplied clause exactly when that clause carries no
surrounding whitespace), and its name is the parent's name followed by the
trimmed clause wrapped in braces. -/
theorem addSubmetric_suffix_trimmed (st : MState) (p : Nat) (kv : List Char)
    (s b : Nat) (post : MState) (sub : Submetric)
    (h : addSubmetric st p kv = AddResult.ok s b post)
    (hsub : nth post.subs s = some sub) :
    sub.suffix = trimSpace kv ∧
    (∀ m, nth st.metrics p = some m →
      sub.name = m.name ++ lbrace :: (trimSpace kv ++ [rbrace])) ∧
    (trimSpace kv = kv → sub.suffix = kv) := by
  obtain ⟨m, sk, hm, hne, hdup, hsk, hs, hb, hpost⟩ := addSubmetric_ok_inv h
  subst hs
  subst hb
  subst hpost
  rw [show (⟨setNth
        (st.metrics ++
          [⟨m.name ++ lbrace :: (trimSpace kv ++ [rbrace]), m.type, m.contains, [],
            some st.subs.length, some sk⟩]) p
        ⟨m.name, m.type, m.contains, m.submetrics ++ [st.subs.length], m.sub, m.sink⟩,
      st.subs ++
        [⟨m.name ++ lbrace :: (trimSpace kv ++ [rbrace]), trimSpace kv,
          IntoSampleTags (buildRawTags (goSplit comma (trimSpace kv))),
          st.metrics.length, p⟩]⟩ : MState).subs =
    st.subs ++
      [⟨m.name ++ lbrace :: (trimSpace kv ++ [rbrace]), trimSpace kv,
        IntoSampleTags (buildRawTags (goSplit comma (trimSpace kv))),
        st.metrics.length, p⟩] from rfl, nth_append_length] at hsub
  cases hsub
  refine ⟨rfl, ?_, ?_⟩
  · intro m2 hm2
    rw [hm] at hm2
    cases hm2
    rfl
  · intro ht
    exact ht

/-- The post-state of the witness call for C5. -/
def post5 : MState := okPost (addSubmetric st0 0 (" a:1 ".toList)) st0

/-- The submetric created by the witness call for C5. -/
def sub5 : Submetric := (okSub (addSubmetric st0 0 (" a:1 ".toList))).getD ⟨[], [], ⟨[]⟩, 0, 0⟩

/-- Witness for the amended C5: the stored suffix of a concrete successful
call is the trimmed clause. -/
theorem addSubmetric_suffix_trimmed_witness : sub5.suffix = trimSpace (" a:1 ".toList) := by
  have h : addSubmetric st0 0 (" a:1 ".toList) = AddResult.ok 0 1 post5 := rfl
  have hsub : nth post5.subs 0 = some sub5 := rfl
  exact (addSubmetric_suffix_trimmed st0 0 (" a:1 ".toList) 0 1 post5 sub5 h hsub).1

/-! ### Claim C6 -/

/-- Claim C6: a successful AddSubmetric call builds the backing metric with
the submetric's full name, the parent's kind and the parent's valueType,
wires the backing metric's Sub link to the new submetric and the
submetric's Metric link to the backing metric, and appends the new
submetric at the end of the parent's Submetrics sequence. -/
theorem addSubmetric_backing_links (st : MState) (p : Nat) (m : Metric) (kv : List Char)
    (s b : Nat) (post : MState)
    (hm : nth st.metrics p = some m)
    (h : addSubmetric st p kv = AddResult.ok s b post) :
    ∃ sub backing m2,
      nth post.subs s = some sub ∧
      nth post.metrics b = some backing ∧
      nth post.metrics p = some m2 ∧
      backing.name = sub.name ∧
      backing.type = m.type ∧
      backing.contains = m.contains ∧
      backing.sub = some s ∧
      sub.metric = b ∧
      sub.parent = p ∧
      m2.submetrics = m.submetrics ++ [s] := by
  obtain ⟨m', sk, hm', hne, hdup, hsk, hs, hb, hpost⟩ := addSubmetric_ok_inv h
  rw [hm] at hm'
  cases hm'
  subst hs
  subst hb
  subst hpost
  have hp : p < st.metrics.length := nth_some_lt hm
  refine ⟨⟨m.name ++ lbrace :: (trimSpace kv ++ [rbrace]), trimSpace kv,
      IntoSampleTags (buildRawTags (goSplit comma (trimSpace kv))), st.metrics.length, p⟩,
    ⟨m.name ++ lbrace :: (trimSpace kv ++ [rbrace]), m.type, m.contains, [],
      some st.subs.length, some sk⟩,
    ⟨m.name, m.type, m.contains, m.submetrics ++ [st.subs.length], m.sub, m.sink⟩,
    nth_append_length _ _, ?_, ?_, rfl, rfl, rfl, rfl, rfl, rfl, rfl⟩
  · show nth (setNth (st.metrics ++ _) p _) st.metrics.length = _
    rw [nth_setNth_ne _ (fun e => absurd e (Nat.ne_of_gt hp))]
    exact nth_append_length _ _
  · show nth (setNth (st.metrics ++ _) p _) p = _
    rw [nth_setNth_self _ (by rw [List.length_append]; omega)]

/-- The post-state of the witness call for C6. -/
def post6 : MState := okPost (addSubmetric st0 0 ("a:1".toList)) st0

/-- Witness for C6: in a concrete successful call, the backing metric at
arena index 1 has the parent's kind, the parent's valueType and a Sub link
to the new submetric. -/
theorem addSubmetric_backing_links_witness :
    (nth post6.metrics 1).map Metric.type = some Counter ∧
    (nth post6.metrics 1).map Metric.contains = some Default ∧
    (nth post6.metrics 1).map Metric.sub = some (some 0) := by
  have h : addSubmetric st0 0 ("a:1".toList) = AddResult.ok 0 1 post6 := rfl
  obtain ⟨sub, backing, m2, h1, h2, h3, h4, h5, h6, h7, h8, h9, h10⟩ :=
    addSubmetric_backing_links st0 0 mC ("a:1".toList) 0 1 post6 rfl h
  rw [h2]
  refine ⟨?_, ?_, ?_⟩
  · show some backing.type = some Counter
    rw [h5]
    rfl
  · show some backing.contains = some Default
    rw [h6]
    rfl
  · show some backing.sub = some (some 0)
    rw [h7]

/-! ### Claim C10 -/

/-- Claim C10: a clause that is non-empty after trimming but consists only
of commas passes the emptiness check, every empty segment between commas is
skipped, the canonical tag set is built from the empty mapping, and (on a
fresh parent of a supported kind) a submetric carrying zero tags is
successfully created and appended. -/
theorem addSubmetric_commas_only (st : MState) (p : Nat) (m : Metric) (kv : List Char)
    (hm : nth st.metrics p = some m) (hne : kv ≠ [])
    (hcomma : ∀ c ∈ kv, c = comma) (hsm : m.submetrics = [])
    (sk : Sink) (hsk : sinkForType m.type = some sk) :
    ∃ s b post sub m2,
      addSubmetric st p kv = AddResult.ok s b post ∧
      nth post.subs s = some sub ∧
      sub.tags = IntoSampleTags [] ∧
      nth post.metrics p = some m2 ∧
      m2.submetrics = [s] := by
  have htrim : trimSpace kv = kv := trimBoth_id_of_all_false (fun c hc => by
    rw [hcomma c hc]; rfl)
  have hraw : buildRawTags (goSplit comma kv) = [] := buildRawTags_all_commas hcomma
  have hp : p < st.metrics.length := nth_some_lt hm
  unfold addSubmetric
  simp only [hm, htrim, hraw, hsm]
  rw [if_neg hne]
  simp only [show findDup st.subs [] (IntoSampleTags []) = none from rfl]
  simp only [show newMetric (m.name ++ lbrace :: (kv ++ [rbrace])) m.type [m.contains] =
    some ⟨m.name ++ lbrace :: (kv ++ [rbrace]), m.type, m.contains, [], none, some sk⟩ by
    rw [newMetric, hsk]]
  refine ⟨st.subs.length, st.metrics.length, _,
    ⟨m.name ++ lbrace :: (kv ++ [rbrace]), kv, IntoSampleTags [], st.metrics.length, p⟩,
    ⟨m.name, m.type, m.contains, [] ++ [st.subs.length], m.sub, m.sink⟩,
    rfl, nth_append_length _ _, rfl, ?_, ?_⟩
  · show nth (setNth (st.metrics ++ _) p _) p = _
    rw [nth_setNth_self _ (by rw [List.length_append]; omega)]
  · rfl

/-- Witness for C10: the clause consisting of one comma succeeds on a
concrete fresh counter metric. -/
theorem addSubmetric_commas_only_witness :
    AddResult.isOk (addSubmetric st0 0 [comma]) = true := by
  obtain ⟨s, b, post, sub, m2, h1, _⟩ :=
    addSubmetric_commas_only st0 0 mC [comma] rfl (by decide) (by decide) rfl
      Sink.counterSink rfl
  rw [h1]
  rfl

/-! ### Claim C1 -/

/-- The state after registering the first clause of the C1 example. -/
def st1 : MState := okPost (addSubmetric st0 0 ("status:200,method:GET".toList)) st0

/-- Claim C1: AddSubmetric fails with a duplicate error whenever the
canonical tag set of the new clause is semantically (order-independently)
equal to the tag set of some existing submetric of the parent;
consequently, on states whose submetric indices are live, the parent's
submetric sequence never acquires two entries with equal canonical tag
sets; and concretely, adding status:200,method:GET and then
method:GET,status:200 to the same fresh parent makes the second call fail
as a duplicate. -/
theorem addSubmetric_no_duplicate_tags :
    (∀ st p m kv i sm,
      nth st.metrics p = some m →
      trimSpace kv ≠ [] →
      i ∈ m.submetrics →
      nth st.subs i = some sm →
      sm.tags.IsEqual (IntoSampleTags (buildRawTags (goSplit comma (trimSpace kv)))) = true →
      AddResult.isDup (addSubmetric st p kv) = true) ∧
    (∀ st p m kv s b post m2,
      nth st.metrics p = some m →
      (∀ j ∈ m.submetrics, j < st.subs.length) →
      NoDupTags st.subs m.submetrics →
      addSubmetric st p kv = AddResult.ok s b post →
      nth post.metrics p = some m2 →
      NoDupTags post.subs m2.submetrics) ∧
    (AddResult.isOk (addSubmetric st0 0 ("status:200,method:GET".toList)) = true ∧
     AddResult.isDup (addSubmetric st1 0 ("method:GET,status:200".toList)) = true) := by
  refine ⟨?_, ?_, rfl, rfl⟩
  · intro st p m kv i sm hm hne hi hsm heq
    obtain ⟨nm, hfd⟩ := findDup_mem_some hi hsm heq
    unfold addSubmetric
    simp only [hm, hfd]
    rw [if_neg hne]
    rfl
  · intro st p m kv s b post m2 hm hwf hnd h hm2
    obtain ⟨m', sk, hm', hne, hdup, hsk, hs, hb, hpost⟩ := addSubmetric_ok_inv h
    rw [hm] at hm'
    cases hm'
    subst hs
    subst hb
    subst hpost
    have hp : p < st.metrics.length := nth_some_lt hm
    rw [show (⟨setNth
          (st.metrics ++
            [⟨m.name ++ lbrace :: (trimSpace kv ++ [rbrace]), m.type, m.contains, [],
              some st.subs.length, some sk⟩]) p
          ⟨m.name, m.type, m.contains, m.submetrics ++ [st.subs.length], m.sub, m.sink⟩,
        st.subs ++
          [⟨m.name ++ lbrace :: (trimSpace kv ++ [rbrace]), trimSpace kv,
            IntoSampleTags (buildRawTags (goSplit comma (trimSpace kv))),
            st.metrics.length, p⟩]⟩ : MState).metrics =
      setNth
        (st.metrics ++
          [⟨m.name ++ lbrace :: (trimSpace kv ++ [rbrace]), m.type, m.contains, [],
            some st.subs.length, some sk⟩]) p
        ⟨m.name, m.type, m.contains, m.submetrics ++ [st.subs.length], m.sub, m.sink⟩
      from rfl] at hm2
    rw [nth_setNth_self _ (by rw [List.length_append]; omega)] at hm2
    cases hm2
    show NoDupTags _ (m.submetrics ++ [st.subs.length])
    unfold NoDupTags
    rw [List.pairwise_append]
    refine ⟨?_, List.pairwise_singleton _ _, ?_⟩
    · refine hnd.imp_of_mem ?_
      intro a b' ha hb' hr x y hx hy
      rw [nth_append_left (hwf a ha)] at hx
      rw [nth_append_left (hwf b' hb')] at hy
      exact hr x y hx hy
    · intro a ha b' hb'
      rw [List.mem_singleton] at hb'
      subst hb'
      intro x y hx hy
      rw [nth_append_left (hwf a ha)] at hx
      rw [nth_append_length] at hy
      cases hy
      exact findDup_none_not_equal hdup a ha x hx

/-- Witness for C1: on a concrete state that already owns a submetric with
the tag set of status:200, adding the clause status:200 again fails as a
duplicate. -/
theorem addSubmetric_no_duplicate_tags_witness :
    AddResult.isDup (addSubmetric stW 0 ("status:200".toList)) = true :=
  addSubmetric_no_duplicate_tags.1 stW 0 mW ("status:200".toList) 0 smW rfl (by decide)
    (by decide) rfl (by decide)

end K6
